import Mathlib

/-!
Verification of the availability-filtering and planning-parsing pipeline of the
tennis.paris.fr listener. Definitions are shallow embeddings of the JavaScript
source in docs/lib/tennis-api.js and main.js: JavaScript arrays become Lean
lists, JavaScript objects used as string-keyed maps become association lists,
and the insertion-ordered object holding per-court statuses becomes an
association list as well. Machine-level string scanning (the regular
expressions of parsePlanningHTML) is embedded as explicit character-list
scanners that reproduce the backtracking behaviour of the concrete patterns.
-/

set_option maxRecDepth 20000

/-- Whitespace class used by the JavaScript regular-expression token matching
the source pattern (ASCII whitespace plus NBSP, BOM and line separators). -/
def isJsWs (c : Char) : Bool :=
  c == ' ' || c == Char.ofNat 9 || c == Char.ofNat 10 || c == Char.ofNat 13 ||
  c == Char.ofNat 11 || c == Char.ofNat 12 || c == Char.ofNat 160 ||
  c == Char.ofNat 0xFEFF || c == Char.ofNat 0x2028 || c == Char.ofNat 0x2029

/-- Boolean test that a pattern is an initial segment of a character list. -/
def matchPre : List Char → List Char → Bool
  | [], _ => true
  | _ :: _, [] => false
  | p :: ps, c :: cs => p == c && matchPre ps cs

/-- Numeric value of a list of decimal digit characters, most significant
first, as JavaScript parseInt computes it for a digit-only string. -/
def digitsVal (ds : List Char) : Int :=
  ds.foldl (fun a c => a * 10 + ((c.toNat : Int) - 48)) 0

/-- Embedding of JavaScript parseInt restricted to base 10: skip leading
whitespace, an optional sign, then a maximal run of decimal digits; the result
is none (NaN) when no digit is found. -/
def jsParseInt (s : String) : Option Int :=
  let l := s.toList.dropWhile isJsWs
  let sgn : Int := match l with | c :: _ => if c == '-' then -1 else 1 | [] => 1
  let l2 := match l with | c :: r => if c == '-' || c == '+' then r else l | [] => l
  let ds := l2.takeWhile Char.isDigit
  if ds.isEmpty then none else some (sgn * digitsVal ds)

/-- Raw court record as it appears inside a feature of the upstream JSON
(fields _formattedAirNum, _airNom, _airCvt). -/
structure RawCourt where
  formattedAirNum : Int
  airNom : String
  airCvt : String
deriving Repr, DecidableEq

/-- Raw feature of the upstream availability response: the fields of
feature.properties that the pipeline reads (available, general._nomSrtm,
general._id, courts). -/
structure RawFeature where
  available : Bool
  nomSrtm : String
  id : Int
  courts : List RawCourt
deriving Repr, DecidableEq

/-- Court record after the facility filter reshapes raw courts
(courtNumber, courtName, covered). -/
structure Court where
  courtNumber : Int
  courtName : String
  covered : String
deriving Repr, DecidableEq

/-- Facility record produced by filterByFacilities
(facility, facilityId, courts). -/
structure FilteredFacility where
  facility : String
  facilityId : Int
  courts : List Court
deriving Repr, DecidableEq

/-- Embedding of filterByFacilities (tennis-api.js lines 106-131): keep the
features that are available and whose name is in facilityNames, then reshape
each one into a FilteredFacility; the argument is rawJson.features. -/
def filterByFacilities (features : List RawFeature) (facilityNames : List String) :
    List FilteredFacility :=
  (features.filter (fun f => f.available && facilityNames.contains f.nomSrtm)).map
    (fun f =>
      { facility := f.nomSrtm
        facilityId := f.id
        courts := f.courts.map (fun c =>
          { courtNumber := c.formattedAirNum
            courtName := c.airNom
            covered := c.airCvt }) })

/-- Per-facility body of the court-number filter (tennis-api.js lines
152-165): the allowed list is the looked-up entry with default empty,
matching the JavaScript or-else default; an empty allowed list keeps the
facility unchanged, a non-empty one keeps only the courts whose number is
contained in it. -/
def courtNumbersKeep (m : List (String × List Int)) (fac : FilteredFacility) :
    FilteredFacility :=
  let allowedNumbers := (m.lookup fac.facility).getD []
  if allowedNumbers.length = 0 then fac
  else { fac with courts := fac.courts.filter (fun c =>
           allowedNumbers.contains c.courtNumber) }

/-- Embedding of filterByCourtNumbers (tennis-api.js lines 142-172). The
courtNumbers object is an association list; none models a null or undefined
argument, and the early exit fires when it is absent or has no key; otherwise
the per-facility body runs and facilities left with no court are dropped. -/
def filterByCourtNumbers (facilities : List FilteredFacility)
    (courtNumbers : Option (List (String × List Int))) : List FilteredFacility :=
  match courtNumbers with
  | none => facilities
  | some m =>
    if m.length = 0 then facilities
    else ((facilities.map (courtNumbersKeep m)).filter
      (fun fac => fac.courts.length > 0))

/-- Embedding of filterByCovered (tennis-api.js lines 181-197): keep only the
courts whose covered flag is the literal V, then drop empty facilities. -/
def filterByCovered (facilities : List FilteredFacility) : List FilteredFacility :=
  ((facilities.map (fun fac =>
      { fac with courts := fac.courts.filter (fun c => c.covered == "V") })).filter
    (fun fac => fac.courts.length > 0))

/-- Membership of a court number in an allowed entry, the propositional test
of the spec wording. -/
def memNum (e : List Int) (c : Court) : Bool :=
  decide (c.courtNumber ∈ e)

/-- Modelled from the wording of the spec, per-facility step of the
court-number filter: look up the allowed set of the facility; with no entry
or an empty entry keep all its courts, with a non-empty entry keep exactly
the courts whose number is a member; the result is none exactly when the kept
court list is empty. -/
def courtNumbersKeepSpec (m : List (String × List Int)) (fac : FilteredFacility) :
    Option FilteredFacility :=
  let kept : List Court :=
    match m.lookup fac.facility with
    | none => fac.courts
    | some [] => fac.courts
    | some e => fac.courts.filter (memNum e)
  if kept.isEmpty then none else some { fac with courts := kept }

/-- Modelled from the wording of the spec for the court-number filter: apply
the per-facility step everywhere and drop the facilities it rejects. -/
def filterByCourtNumbersSpec (m : List (String × List Int))
    (facilities : List FilteredFacility) : List FilteredFacility :=
  facilities.filterMap (courtNumbersKeepSpec m)

/-- Modelled from the wording of the spec for the covered filter: keep exactly
the courts whose covered flag equals V, preserving order, and remove every
facility left with zero covered courts. -/
def filterByCoveredSpec (facilities : List FilteredFacility) : List FilteredFacility :=
  facilities.filterMap (fun fac =>
    let kept := fac.courts.filter (fun c => decide (c.covered = "V"))
    if kept.isEmpty then none else some { fac with courts := kept })

/-- Character list of the literal opening of a court header,
the span-title tag followed by the word Court and a space. -/
def courtHeadPre : List Char := "<span class=\"title\">Court ".toList

/-- Character list of the span closing tag. -/
def spanClose : List Char := "</span>".toList

/-- Character list of the span opening tag without attributes. -/
def spanOpen : List Char := "<span>".toList

/-- Character list of the table cell closing tag. -/
def tdClose : List Char := "</td>".toList

/-- Character list of the table body closing tag. -/
def tbodyClose : List Char := "</tbody>".toList

/-- Attempt to match the court-header pattern at the start of the list: the
literal prefix, then a non-empty greedy digit run, then the span close. On
success the capture (the word Court, a space and the digits) and the consumed
length are returned; backtracking cannot shorten the digit run because the
character after a shorter run would be a digit where the close tag needs an
angle bracket, so this deterministic scan equals the regex. -/
def tryCourt (s : List Char) : Option (List Char × Nat) :=
  if matchPre courtHeadPre s then
    let r := s.drop courtHeadPre.length
    let ds := r.takeWhile Char.isDigit
    if ds.isEmpty then none
    else if matchPre spanClose (r.drop ds.length) then
      some ("Court ".toList ++ ds, courtHeadPre.length + ds.length + spanClose.length)
    else none
  else none

/-- Global scan for court headers: at each position try the pattern, emit the
capture and jump past the match on success, otherwise advance one character;
this is the successive-exec loop of the source. Fuel bounds the recursion and
is instantiated with the input length, which every step strictly decreases. -/
def scanCourtsAux : Nat → List Char → List (List Char)
  | 0, _ => []
  | _ + 1, [] => []
  | n + 1, c :: cs =>
    match tryCourt (c :: cs) with
    | some (cap, k) => cap :: scanCourtsAux n ((c :: cs).drop k)
    | none => scanCourtsAux n cs

/-- All court-header captures of the document in order (tennis-api.js
lines 211-215). -/
def scanCourts (html : List Char) : List (List Char) :=
  scanCourtsAux html.length html

/-- Attempt to match the timeslot pattern at the start of the list: a cell
open tag, two digits, the hour letter, space dash space, two digits, the hour
letter, then the cell close tag. The capture is the nine-character time label
and the consumed length is eighteen. -/
def tryTime (s : List Char) : Option (List Char × Nat) :=
  match s with
  | '<' :: 't' :: 'd' :: '>' :: d1 :: d2 :: 'h' :: ' ' :: '-' :: ' ' :: d3 :: d4 :: 'h' :: rest =>
    if d1.isDigit && d2.isDigit && d3.isDigit && d4.isDigit && matchPre tdClose rest then
      some ([d1, d2, 'h', ' ', '-', ' ', d3, d4, 'h'], 18)
    else none
  | _ => none

/-- Global scan for timeslot labels recording the absolute start offset of
each match, mirroring the loop that stores match.index
(tennis-api.js lines 219-226). -/
def scanTimesAux : Nat → Nat → List Char → List (List Char × Nat)
  | 0, _, _ => []
  | _ + 1, _, [] => []
  | n + 1, pos, c :: cs =>
    match tryTime (c :: cs) with
    | some (cap, k) => (cap, pos) :: scanTimesAux n (pos + k) ((c :: cs).drop k)
    | none => scanTimesAux n (pos + 1) cs

/-- All timeslot labels of the document with their start offsets. -/
def scanTimes (html : List Char) : List (List Char × Nat) :=
  scanTimesAux html.length 0 html

/-- Completion of a cell match right after a span open tag: a non-empty greedy
run of characters other than an opening angle bracket (the capture), the span
close tag, greedy whitespace, then the cell close tag. Shorter captures or
shorter whitespace runs cannot rescue a failure because the next required
character is an opening angle bracket, which neither class contains, so this
deterministic check equals the regex backtracking. -/
def cellTail (u : List Char) : Option (List Char × Nat) :=
  let cap := u.takeWhile (fun c => c != '<')
  if cap.isEmpty then none
  else
    let r1 := u.drop cap.length
    if matchPre spanClose r1 then
      let r2 := r1.drop spanClose.length
      let ws := r2.takeWhile isJsWs
      if matchPre tdClose (r2.drop ws.length) then
        some (cap, cap.length + spanClose.length + ws.length + tdClose.length)
      else none
    else none

/-- Lazy-dot search of the cell pattern: try every occurrence of the span open
tag in order, completing each with cellTail, exactly as the lazy group expands
occurrence by occurrence; the consumed count is relative to the list given. -/
def cellSearchAux : Nat → List Char → Option (List Char × Nat)
  | 0, _ => none
  | _ + 1, [] => none
  | n + 1, c :: cs =>
    (if matchPre spanOpen (c :: cs) then
      match cellTail ((c :: cs).drop spanOpen.length) with
      | some (cap, k) => some (cap, spanOpen.length + k)
      | none =>
        match cellSearchAux n cs with
        | some (cap, k) => some (cap, k + 1)
        | none => none
    else
      match cellSearchAux n cs with
      | some (cap, k) => some (cap, k + 1)
      | none => none)

/-- Attempt to match the whole cell pattern at the start of the list: the cell
open tag, a greedy run of characters other than a closing angle bracket (the
attributes), the closing angle bracket, then the lazy search for a span whose
content reaches a cell close tag. -/
def tryCell (s : List Char) : Option (List Char × Nat) :=
  if matchPre "<td".toList s then
    let r := s.drop 3
    let attrs := r.takeWhile (fun c => c != '>')
    match r.drop attrs.length with
    | '>' :: r2 =>
      match cellSearchAux r2.length r2 with
      | some (cap, k) => some (cap, 3 + attrs.length + 1 + k)
      | none => none
    | _ => none
  else none

/-- Global scan extracting the status strings of one row span, mirroring the
successive-exec loop over the cell pattern (tennis-api.js lines 255-260). -/
def scanCellsAux : Nat → List Char → List String
  | 0, _ => []
  | _ + 1, [] => []
  | n + 1, c :: cs =>
    match tryCell (c :: cs) with
    | some (cap, k) => String.mk cap :: scanCellsAux n ((c :: cs).drop k)
    | none => scanCellsAux n cs

/-- All cell status captures of a row span in document order. -/
def scanCells (slotHTML : List Char) : List String :=
  scanCellsAux slotHTML.length slotHTML

/-- Embedding of the JavaScript indexOf with a from index: the offset of the
first occurrence of the pattern at or after the given position, or minus one
when there is none. -/
def indexOfFromAux (pat : List Char) : Nat → Nat → List Char → Int
  | 0, _, _ => -1
  | n + 1, pos, t =>
    if matchPre pat t then (pos : Int)
    else match t with
      | [] => -1
      | _ :: cs => indexOfFromAux pat n (pos + 1) cs

/-- JavaScript indexOf of a pattern in a string from a start offset. -/
def indexOfFrom (s pat : List Char) (start : Nat) : Int :=
  indexOfFromAux pat (s.length + 1) start (s.drop start)

/-- Embedding of the JavaScript substring method: both indices are clamped to
the string bounds (negative values become zero) and swapped when the first
exceeds the second, so a minus-one end index yields the prefix before the
start index rather than an empty string. -/
def jsSubstring (s : List Char) (a b : Int) : List Char :=
  let n : Int := (s.length : Int)
  let a2 := min (max a 0) n
  let b2 := min (max b 0) n
  ((s.drop (min a2 b2).toNat).take (max a2 b2 - min a2 b2).toNat)

/-- Per-court status entry of one timeslot (status, available). -/
structure CourtStatus where
  status : String
  available : Bool
deriving Repr, DecidableEq

/-- One parsed timeslot row: the time label and the insertion-ordered mapping
from court name to status entry, embedded as an association list. -/
structure Timeslot where
  time : String
  courts : List (String × CourtStatus)
deriving Repr, DecidableEq

/-- Result of parsePlanningHTML: the ordered court names and timeslot rows. -/
structure Planning where
  courts : List String
  timeslots : List Timeslot
deriving Repr, DecidableEq

/-- Embedding of the status-to-court mapping loop (tennis-api.js lines
263-271): iterate over the courts with their index, adding an entry exactly
when the index is below the number of extracted statuses; availability is the
comparison of the status with the literal LIBRE. -/
def assignStatusesFrom (statuses : List String) : Nat → List String → List (String × CourtStatus)
  | _, [] => []
  | i, name :: rest =>
    match statuses.get? i with
    | some st => (name, { status := st, available := st == "LIBRE" }) :: assignStatusesFrom statuses (i + 1) rest
    | none => assignStatusesFrom statuses (i + 1) rest

/-- Status assignment for a row starting at court index zero. -/
def assignStatuses (courts statuses : List String) : List (String × CourtStatus) :=
  assignStatusesFrom statuses 0 courts

/-- Embedding of the per-timeslot loop (tennis-api.js lines 229-274): the end
offset of a row is the start offset of the next row, or for the last row the
indexOf of the table body close tag from the row start; the row span is the
substring between the offsets and its cell captures are zipped onto the
courts. -/
def buildTimeslots (html : List Char) (courts : List String) :
    List (List Char × Nat) → List Timeslot
  | [] => []
  | (time, startPos) :: rest =>
    let endPos : Int :=
      match rest with
      | (_, nextStart) :: _ => (nextStart : Int)
      | [] => indexOfFrom html tbodyClose startPos
    let slotHTML := jsSubstring html (startPos : Int) endPos
    let statuses := scanCells slotHTML
    { time := String.mk time, courts := assignStatuses courts statuses } ::
      buildTimeslots html courts rest

/-- Embedding of parsePlanningHTML (tennis-api.js lines 204-277): scan the
court headers, scan the timeslot labels with offsets, then build each row. -/
def parsePlanningHTML (html : List Char) : Planning :=
  let courts := (scanCourts html).map String.mk
  { courts := courts
    timeslots := buildTimeslots html courts (scanTimes html) }

/-- Search parameters read by the detailed pipeline (hour range, optional
court-number mapping, covered-only flag). -/
structure SearchParams where
  hourRangeStart : Int
  hourRangeEnd : Int
  courtNumbers : Option (List (String × List Int))
  coveredOnly : Bool
deriving Repr, DecidableEq

/-- Parsed planning page enriched with the date, as fetchCourtPlanning hands
it to getDetailedAvailability. -/
structure PlanningData where
  date : String
  courts : List String
  timeslots : List Timeslot
deriving Repr, DecidableEq

/-- Detailed facility output of getDetailedAvailability. -/
structure DetailedFacility where
  facility : String
  facilityId : Int
  date : String
  courts : List String
  timeslots : List Timeslot
deriving Repr, DecidableEq

/-- Leading hour of a timeslot label (tennis-api.js line 447): parseInt of the
part of the label before the first hour letter, none standing for NaN. -/
def slotStartHour (slot : Timeslot) : Option Int :=
  jsParseInt (String.mk (slot.time.toList.takeWhile (fun c => c != 'h')))

/-- Hour-range predicate of the timeslot filter (tennis-api.js lines
445-449): the leading hour is at least the range start and strictly below the
range end; a NaN hour fails both comparisons. -/
def slotInRange (p : SearchParams) (slot : Timeslot) : Bool :=
  match slotStartHour slot with
  | some h => decide (p.hourRangeStart ≤ h) && decide (h < p.hourRangeEnd)
  | none => false

/-- Numeric court identifier extracted from a planning column label by the
Court-number pattern (tennis-api.js lines 476-483): the first occurrence of
the word Court and a space followed by at least one digit, with the greedy
digit run converted by parseInt. -/
def courtNameNumberAux : Nat → List Char → Option Int
  | 0, _ => none
  | _ + 1, [] => none
  | n + 1, c :: cs =>
    (if matchPre "Court ".toList (c :: cs) then
      let ds := ((c :: cs).drop 6).takeWhile Char.isDigit
      if ds.isEmpty then courtNameNumberAux n cs else some (digitsVal ds)
    else courtNameNumberAux n cs)

/-- Court number of a column label, none when the pattern does not occur. -/
def courtNameNumber (name : String) : Option Int :=
  courtNameNumberAux name.toList.length name.toList

/-- Per-facility body of the detailed loop (tennis-api.js lines 444-498):
filter the timeslots by hour range, recompute the allowed court numbers from
the surviving facility courts and the courtNumbers and coveredOnly criteria,
keep the planning columns whose extracted number is allowed, restrict every
timeslot row to those columns and drop rows left empty. -/
def detailedForFacility (p : SearchParams) (fac : FilteredFacility)
    (planning : PlanningData) : DetailedFacility :=
  let filteredTimeslots := planning.timeslots.filter (slotInRange p)
  let facilityCourts := fac.courts.map (fun c => (c.courtNumber, c.covered))
  let allowed0 := facilityCourts.map Prod.fst
  let allowed1 :=
    match p.courtNumbers.bind (fun m => m.lookup fac.facility) with
    | some nums => allowed0.filter (fun n => nums.contains n)
    | none => allowed0
  let allowed2 :=
    if p.coveredOnly then
      let coveredNumbers := (facilityCourts.filter (fun pr => pr.2 == "V")).map Prod.fst
      allowed1.filter (fun n => coveredNumbers.contains n)
    else allowed1
  let courtsToInclude := planning.courts.filter (fun nm =>
    match courtNameNumber nm with
    | some num => allowed2.contains num
    | none => false)
  { facility := fac.facility
    facilityId := fac.facilityId
    date := planning.date
    courts := courtsToInclude
    timeslots :=
      (filteredTimeslots.map (fun slot =>
        { time := slot.time
          courts := slot.courts.filter (fun pr => courtsToInclude.contains pr.1) })).filter
        (fun slot => slot.courts.length > 0) }

/-- Availability gate of the detailed loop (tennis-api.js lines 500-503): some
remaining timeslot has some court entry marked available. -/
def hasAvailability (d : DetailedFacility) : Bool :=
  d.timeslots.any (fun slot => slot.courts.any (fun pr => pr.2.available))

/-- Pure core of getDetailedAvailability (tennis-api.js lines 435-513) over
the fast-mode facilities, with the per-facility planning fetch abstracted as
an oracle; a none result models the caught fetch failure that skips just that
facility, and a facility enters the output only when the availability gate
holds. -/
def getDetailedAvailabilityCore (p : SearchParams)
    (planningOf : String → Option PlanningData) :
    List FilteredFacility → List DetailedFacility
  | [] => []
  | fac :: rest =>
    match planningOf fac.facility with
    | none => getDetailedAvailabilityCore p planningOf rest
    | some planning =>
      let d := detailedForFacility p fac planning
      if hasAvailability d then d :: getDetailedAvailabilityCore p planningOf rest
      else getDetailedAvailabilityCore p planningOf rest

/-- State transition of the change-detection step of main.js (lines 105-128):
given the previous state-file content (none when the file is missing or
unreadable) and the serialized current result, the new file content and
whether the write to the state file was performed. The write happens exactly
when the serialization differs from the previous content. -/
def mainChangeDetect (previousJson : Option String) (json : String) :
    Option String × Bool :=
  if previousJson ≠ some json then (some json, true) else (previousJson, false)

/-- Raw feature that is available and name-matching but carries an empty
courts array, exercising the facility-filter pruning question. -/
def featNoCourts : RawFeature :=
  { available := true, nomSrtm := "A", id := 1, courts := [] }

/-- Court number five of the worked example. -/
def courtFive : Court := { courtNumber := 5, courtName := "Court 05", covered := "F" }

/-- Court number six of the worked example. -/
def courtSix : Court := { courtNumber := 6, courtName := "Court 06", covered := "F" }

/-- Court number seven of the worked example. -/
def courtSeven : Court := { courtNumber := 7, courtName := "Court 07", covered := "F" }

/-- Court number eight of the worked example. -/
def courtEight : Court := { courtNumber := 8, courtName := "Court 08", covered := "F" }

/-- Facility A with courts five to eight, the worked example of the
court-number filter. -/
def facA : FilteredFacility :=
  { facility := "A", facilityId := 1, courts := [courtFive, courtSix, courtSeven, courtEight] }

/-- Facility with covered flags V, F, V in that order. -/
def facMixed : FilteredFacility :=
  { facility := "Mixed", facilityId := 2
    courts := [{ courtNumber := 1, courtName := "Court 01", covered := "V" },
               { courtNumber := 2, courtName := "Court 02", covered := "F" },
               { courtNumber := 3, courtName := "Court 03", covered := "V" }] }

/-- Facility with no covered court at all. -/
def facOutdoor : FilteredFacility :=
  { facility := "Outdoor", facilityId := 3
    courts := [{ courtNumber := 1, courtName := "Court 01", covered := "F" }] }

/-- Planning page with two court headers but a single status cell in its only
row, so the second court must be left without a status entry. -/
def htmlShortRow : List Char :=
  ("<span class=\"title\">Court 01</span><span class=\"title\">Court 02</span>" ++
   "<td>09h - 10h</td><td><span>LIBRE</span></td></tbody>").toList

/-- Document with a timeslot label but no court header at all. -/
def htmlNoHeaders : List Char := "<td>08h - 09h</td>".toList

/-- Document with one court header, two timeslot rows, a status cell between
them and no table body close tag anywhere. -/
def htmlNoTbody : List Char :=
  ("<span class=\"title\">Court 1</span><td>07h - 08h</td>" ++
   "<td><span>LIBRE</span></td><td>08h - 09h</td>").toList

/-- Search parameters of the detailed examples: hours nine to twenty-two, no
court-number restriction, covered not required. -/
def paramsEx : SearchParams :=
  { hourRangeStart := 9, hourRangeEnd := 22, courtNumbers := none, coveredOnly := false }

/-- Fast-mode facility used by the detailed examples. -/
def facDetailed : FilteredFacility :=
  { facility := "Candie", facilityId := 4
    courts := [{ courtNumber := 1, courtName := "Court 01", covered := "V" }] }

/-- Planning whose only surviving timeslot entry is a reservation, with no
available pair at all. -/
def planningReserved : PlanningData :=
  { date := "23/05/2021", courts := ["Court 01"]
    timeslots := [{ time := "09h - 10h"
                    courts := [("Court 01",
                      { status := "Réservé le 23.05.2021 09:00", available := false })] }] }

/-- Planning with one available timeslot entry. -/
def planningFree : PlanningData :=
  { date := "23/05/2021", courts := ["Court 01"]
    timeslots := [{ time := "09h - 10h"
                    courts := [("Court 01", { status := "LIBRE", available := true })] }] }

/-- Oracle answering every facility with the all-reserved planning. -/
def oracleReserved : String → Option PlanningData := fun _ => some planningReserved

/-- Oracle answering every facility with the planning that has one free slot. -/
def oracleFree : String → Option PlanningData := fun _ => some planningFree

/-- Detailed record built from the free planning, the sole output of the
detailed example with availability. -/
def detailedFree : DetailedFacility := detailedForFacility paramsEx facDetailed planningFree

/-- Timeslot with the label of a nine-to-ten slot and no entries, used to
instantiate the hour-filter theorem. -/
def slotNine : Timeslot := { time := "09h - 10h", courts := [] }

/-- Planning data holding only the nine-to-ten slot. -/
def planningNine : PlanningData :=
  { date := "", courts := [], timeslots := [slotNine] }

/-- Claim C9: filterByCourtNumbers applied with an absent or empty courtNumbers
mapping is the identity function on the facilities list. -/
theorem claim_C9_empty_mapping_identity : ∀ (facilities : List FilteredFacility),
    filterByCourtNumbers facilities none = facilities ∧
    filterByCourtNumbers facilities (some []) = facilities := by
  intro facilities
  exact ⟨rfl, rfl⟩

/-- Claim C6 counterexample: at an unchanged input the change-detection step
of main.js performs no write at all, so the fingerprint is not persisted
unconditionally; the write flag of the step is false when the previous state
already equals the current serialization. -/
theorem claim_C6_counterexample :
    (mainChangeDetect (some "[]") "[]").2 = false ∧
    (mainChangeDetect (some "[]") "[]").1 = some "[]" := by
  decide

/-- Claim C6 amended: main.js writes the new fingerprint exactly when it
differs from the stored previous content; the write is skipped when the result
is unchanged, but the store then already holds an identical fingerprint, so
after the step the state store always contains the serialization of the
current result and the next run compares against the immediately prior
state. -/
theorem claim_C6_amended : ∀ (prev : Option String) (json : String),
    (mainChangeDetect prev json).1 = some json ∧
    ((mainChangeDetect prev json).2 = true ↔ prev ≠ some json) := by
  intro prev json
  by_cases h : prev = some json
  · subst h
    simp [mainChangeDetect]
  · simp [mainChangeDetect, h]

/-- Claim C1 counterexample: an available, name-matching raw feature with an
empty courts array passes filterByFacilities unpruned, so the output of the
facility-filter stage contains an element with an empty courts list. -/
theorem claim_C1_counterexample :
    (filterByFacilities [featNoCourts] ["A"]).map (fun f => f.courts) = [[]] := by
  decide

/-- Claim C1 amended: the court-number filter (when its mapping is non-empty)
and the covered filter never leave a facility with an empty courts list, but
the facility-filter stage itself does not prune: an available, name-matching
feature with an empty courts array yields an output facility whose courts
list is empty. -/
theorem claim_C1_amended :
    (∀ (fs : List FilteredFacility) (m : List (String × List Int)) (f : FilteredFacility),
        f ∈ filterByCourtNumbers fs (some m) → m ≠ [] → f.courts ≠ []) ∧
    (∀ (fs : List FilteredFacility) (f : FilteredFacility),
        f ∈ filterByCovered fs → f.courts ≠ []) ∧
    (∀ (feats : List RawFeature) (names : List String) (ft : RawFeature),
        ft ∈ feats → ft.available = true → ft.nomSrtm ∈ names → ft.courts = [] →
        ∃ g, g ∈ filterByFacilities feats names ∧ g.courts = []) := by
  refine ⟨?_, ?_, ?_⟩
  · intro fs m f hf hm
    simp only [filterByCourtNumbers] at hf
    have hlen : ¬ (m.length = 0) := fun h => hm (List.length_eq_zero.mp h)
    rw [if_neg hlen] at hf
    have hp := (List.mem_filter.mp hf).2
    have hpos : 0 < f.courts.length := by simpa using hp
    exact List.length_pos.mp hpos
  · intro fs f hf
    unfold filterByCovered at hf
    have hp := (List.mem_filter.mp hf).2
    have hpos : 0 < f.courts.length := by simpa using hp
    exact List.length_pos.mp hpos
  · intro feats names ft hin hav hnm hcourts
    refine ⟨{ facility := ft.nomSrtm, facilityId := ft.id, courts := [] }, ?_, rfl⟩
    unfold filterByFacilities
    apply List.mem_map.mpr
    refine ⟨ft, List.mem_filter.mpr ⟨hin, ?_⟩, by simp [hcourts]⟩
    simp [hav, List.contains, hnm]

/-- Claim C1 witness: the amended statement instantiated at concrete inputs,
one per conjunct. -/
theorem claim_C1_witness :
    ({ facility := "A", facilityId := 1, courts := [courtFive] } :
        FilteredFacility).courts ≠ [] ∧
    ({ facility := "Mixed", facilityId := 2
       courts := [{ courtNumber := 1, courtName := "Court 01", covered := "V" },
                  { courtNumber := 3, courtName := "Court 03", covered := "V" }] } :
        FilteredFacility).courts ≠ [] ∧
    ∃ g, g ∈ filterByFacilities [featNoCourts] ["A"] ∧ g.courts = [] := by
  refine ⟨?_, ?_, ?_⟩
  · exact claim_C1_amended.1 [facA] [("A", [5])]
      { facility := "A", facilityId := 1, courts := [courtFive] } (by decide) (by decide)
  · exact claim_C1_amended.2.1 [facMixed]
      { facility := "Mixed", facilityId := 2
        courts := [{ courtNumber := 1, courtName := "Court 01", covered := "V" },
                   { courtNumber := 3, courtName := "Court 03", covered := "V" }] } (by decide)
  · exact claim_C1_amended.2.2 [featNoCourts] ["A"] featNoCourts (by decide) (by decide)
      (by decide) (by decide)

/-- Claim C4: a facility enters the output of the detailed pipeline only when
at least one of its remaining timeslot and court pairs is available, and in
the concrete all-reserved scenario the fast-mode facility is absent from the
output entirely. -/
theorem claim_C4_availability_gate :
    (∀ (p : SearchParams) (oracle : String → Option PlanningData)
        (facs : List FilteredFacility) (d : DetailedFacility),
        d ∈ getDetailedAvailabilityCore p oracle facs →
        ∃ slot, slot ∈ d.timeslots ∧ ∃ pr, pr ∈ slot.courts ∧ pr.2.available = true) ∧
    getDetailedAvailabilityCore paramsEx oracleReserved [facDetailed] = [] := by
  constructor
  · intro p oracle facs d
    induction facs with
    | nil =>
      intro hd
      simp [getDetailedAvailabilityCore] at hd
    | cons fac rest ih =>
      intro hd
      simp only [getDetailedAvailabilityCore] at hd
      cases horacle : oracle fac.facility with
      | none =>
        rw [horacle] at hd
        exact ih hd
      | some planning =>
        rw [horacle] at hd
        simp only [] at hd
        by_cases hav : hasAvailability (detailedForFacility p fac planning) = true
        · rw [if_pos hav] at hd
          rcases List.mem_cons.mp hd with heq | hmem
          · subst heq
            unfold hasAvailability at hav
            rcases List.any_eq_true.mp hav with ⟨slot, hslot, hany⟩
            rcases List.any_eq_true.mp hany with ⟨pr, hpr, hprav⟩
            exact ⟨slot, hslot, pr, hpr, hprav⟩
          · exact ih hmem
        · rw [if_neg hav] at hd
          exact ih hd
  · decide

/-- Claim C4 witness: the gate applied to the concrete run whose planning has
one available pair, which therefore appears in the output. -/
theorem claim_C4_witness :
    ∃ slot, slot ∈ detailedFree.timeslots ∧
      ∃ pr, pr ∈ slot.courts ∧ pr.2.available = true :=
  claim_C4_availability_gate.1 paramsEx oracleFree [facDetailed] detailedFree (by decide)

/-- A digit character never tests equal to a non-digit character. -/
theorem isDigit_beq_false (c x : Char) (h : c.isDigit = true) (hx : x.isDigit = false) :
    (c == x) = false := by
  cases hbe : c == x
  · rfl
  · exfalso
    have hcx : c = x := eq_of_beq hbe
    subst hcx
    rw [h] at hx
    exact Bool.noConfusion hx

/-- A digit character is not JavaScript whitespace. -/
theorem isDigit_not_ws (c : Char) (h : c.isDigit = true) : isJsWs c = false := by
  unfold isJsWs
  rw [isDigit_beq_false c ' ' h (by decide), isDigit_beq_false c (Char.ofNat 9) h (by decide),
    isDigit_beq_false c (Char.ofNat 10) h (by decide),
    isDigit_beq_false c (Char.ofNat 13) h (by decide),
    isDigit_beq_false c (Char.ofNat 11) h (by decide),
    isDigit_beq_false c (Char.ofNat 12) h (by decide),
    isDigit_beq_false c (Char.ofNat 160) h (by decide),
    isDigit_beq_false c (Char.ofNat 0xFEFF) h (by decide),
    isDigit_beq_false c (Char.ofNat 0x2028) h (by decide),
    isDigit_beq_false c (Char.ofNat 0x2029) h (by decide)]
  rfl

/-- The leading hour of a timeslot whose label starts with two digits and the
hour letter is the two-digit decimal value. -/
theorem slotStartHour_two_digits (slot : Timeslot) (d1 d2 : Char) (rest : List Char)
    (hts : slot.time.toList = d1 :: d2 :: 'h' :: rest)
    (h1 : d1.isDigit = true) (h2 : d2.isDigit = true) :
    slotStartHour slot = some (10 * ((d1.toNat : Int) - 48) + ((d2.toNat : Int) - 48)) := by
  have hne1 : (d1 != 'h') = true := by
    simp [bne, isDigit_beq_false d1 'h' h1 (by decide)]
  have hne2 : (d2 != 'h') = true := by
    simp [bne, isDigit_beq_false d2 'h' h2 (by decide)]
  have htake : slot.time.toList.takeWhile (fun c => c != 'h') = [d1, d2] := by
    rw [hts]
    rw [List.takeWhile_cons, hne1]
    rw [List.takeWhile_cons, hne2]
    rw [List.takeWhile_cons]
    simp
  unfold slotStartHour
  rw [htake]
  show jsParseInt (String.mk [d1, d2]) = _
  unfold jsParseInt
  have hlist : (String.mk [d1, d2]).toList = [d1, d2] := rfl
  rw [hlist]
  rw [List.dropWhile_cons, isDigit_not_ws d1 h1]
  simp only [Bool.false_eq_true, if_false, reduceIte]
  rw [isDigit_beq_false d1 '-' h1 (by decide), isDigit_beq_false d1 '+' h1 (by decide)]
  simp only [Bool.or_self, Bool.false_eq_true, if_false, reduceIte]
  rw [List.takeWhile_cons, h1, List.takeWhile_cons, h2]
  simp only [List.takeWhile_nil, if_true, reduceIte, List.isEmpty_cons]
  unfold digitsVal
  simp only [List.foldl_cons, List.foldl_nil]
  norm_num
  ring

/-- Claim C7: inside the detailed pipeline a parsed timeslot survives the
hour filter exactly when the leading hour of its label, read as the two-digit
decimal number before the first hour letter, is at least hourRangeStart and
strictly below hourRangeEnd; slotInRange is the predicate the pipeline
filters planning.timeslots with inside detailedForFacility. -/
theorem claim_C7_hour_range :
    ∀ (p : SearchParams) (planning : PlanningData) (slot : Timeslot)
      (d1 d2 : Char) (rest : List Char),
      slot ∈ planning.timeslots →
      slot.time.toList = d1 :: d2 :: 'h' :: rest →
      d1.isDigit = true → d2.isDigit = true →
      (slot ∈ planning.timeslots.filter (slotInRange p) ↔
        p.hourRangeStart ≤ 10 * ((d1.toNat : Int) - 48) + ((d2.toNat : Int) - 48) ∧
        10 * ((d1.toNat : Int) - 48) + ((d2.toNat : Int) - 48) < p.hourRangeEnd) := by
  intro p planning slot d1 d2 rest hmem hts h1 h2
  have hhour := slotStartHour_two_digits slot d1 d2 rest hts h1 h2
  rw [List.mem_filter]
  unfold slotInRange
  rw [hhour]
  simp [hmem]

/-- Claim C7 witness: the hour-range equivalence at the concrete slot from
nine to ten with the range from nine to twenty-two. -/
theorem claim_C7_witness :
    slotNine ∈ planningNine.timeslots.filter (slotInRange paramsEx) ↔
      paramsEx.hourRangeStart ≤ 10 * (('0'.toNat : Int) - 48) + (('9'.toNat : Int) - 48) ∧
      10 * (('0'.toNat : Int) - 48) + (('9'.toNat : Int) - 48) < paramsEx.hourRangeEnd :=
  claim_C7_hour_range paramsEx planningNine slotNine '0' '9' [' ', '-', ' ', '1', '0', 'h']
    (by decide) (by decide) (by decide) (by decide)

/-- The boolean covered test of the source equals the propositional test of
the spec-side formulation, pointwise on every court list. -/
theorem covered_filter_eq (courts : List Court) :
    courts.filter (fun c => c.covered == "V") =
      courts.filter (fun c => decide (c.covered = "V")) :=
  List.filter_congr (fun c _ => by by_cases hc : c.covered = "V" <;> simp [hc])

/-- Claim C8: the covered filter agrees with the specification formulation on
every input (keep exactly the courts whose covered flag is V, preserving
order, and remove every facility with zero covered courts), and on the
concrete mixed facility it keeps exactly the two covered courts while a
facility with no covered court disappears. -/
theorem claim_C8_covered_filter :
    (∀ (fs : List FilteredFacility), filterByCovered fs = filterByCoveredSpec fs) ∧
    filterByCovered [facMixed] =
      [{ facility := "Mixed", facilityId := 2
         courts := [{ courtNumber := 1, courtName := "Court 01", covered := "V" },
                    { courtNumber := 3, courtName := "Court 03", covered := "V" }] }] ∧
    filterByCovered [facOutdoor] = [] := by
  refine ⟨?_, by decide, by decide⟩
  intro fs
  induction fs with
  | nil => rfl
  | cons fac rest ih =>
    unfold filterByCovered filterByCoveredSpec
    unfold filterByCovered filterByCoveredSpec at ih
    rw [List.map_cons, List.filter_cons, List.filterMap_cons]
    by_cases hk : fac.courts.filter (fun c => decide (c.covered = "V")) = []
    · have hb : fac.courts.filter (fun c => c.covered == "V") = [] :=
        (covered_filter_eq fac.courts).trans hk
      simp [hb, hk, ih]
    · have hb : fac.courts.filter (fun c => c.covered == "V") ≠ [] := by
        rw [covered_filter_eq fac.courts]; exact hk
      have hlen : 0 < (fac.courts.filter (fun c => c.covered == "V")).length :=
        List.length_pos.mpr hb
      simp [hk, hlen, ih, covered_filter_eq fac.courts]



/-- The boolean containment test of the source equals the propositional
membership of the spec-side formulation, pointwise on every court list. -/
theorem courtNumbers_filter_eq (e : List Int) (courts : List Court) :
    courts.filter (fun c => e.contains c.courtNumber) =
      courts.filter (memNum e) :=
  List.filter_congr (fun c _ => by simp [memNum, List.contains])

/-- With no entry for the facility the per-facility body keeps it unchanged. -/
theorem courtNumbersKeep_noEntry (m : List (String × List Int))
    (fac : FilteredFacility) (h : m.lookup fac.facility = none) :
    courtNumbersKeep m fac = fac := by
  unfold courtNumbersKeep
  rw [h]
  rfl

/-- With an empty entry for the facility the per-facility body keeps it
unchanged. -/
theorem courtNumbersKeep_emptyEntry (m : List (String × List Int))
    (fac : FilteredFacility) (h : m.lookup fac.facility = some []) :
    courtNumbersKeep m fac = fac := by
  unfold courtNumbersKeep
  rw [h]
  rfl

/-- With a non-empty entry the per-facility body keeps exactly the courts
whose number the entry contains. -/
theorem courtNumbersKeep_entry (m : List (String × List Int))
    (fac : FilteredFacility) (x : Int) (xs : List Int)
    (h : m.lookup fac.facility = some (x :: xs)) :
    courtNumbersKeep m fac =
      { fac with courts := fac.courts.filter (memNum (x :: xs)) } := by
  unfold courtNumbersKeep
  rw [h]
  show (if (x :: xs : List Int).length = 0 then fac
      else { fac with courts := fac.courts.filter (fun c =>
               (x :: xs).contains c.courtNumber) }) = _
  have hne : ¬((x :: xs : List Int).length = 0) := by simp
  rw [if_neg hne]
  rw [courtNumbers_filter_eq (x :: xs) fac.courts]

/-- With no entry the spec-side step keeps the facility when it has courts
and rejects it when it has none. -/
theorem courtNumbersKeepSpec_noEntry (m : List (String × List Int))
    (fac : FilteredFacility) (h : m.lookup fac.facility = none) :
    courtNumbersKeepSpec m fac =
      (if fac.courts = [] then none else some fac) := by
  unfold courtNumbersKeepSpec
  rw [h]
  by_cases hc : fac.courts = [] <;> simp [hc]

/-- With an empty entry the spec-side step keeps the facility when it has
courts and rejects it when it has none. -/
theorem courtNumbersKeepSpec_emptyEntry (m : List (String × List Int))
    (fac : FilteredFacility) (h : m.lookup fac.facility = some []) :
    courtNumbersKeepSpec m fac =
      (if fac.courts = [] then none else some fac) := by
  unfold courtNumbersKeepSpec
  rw [h]
  by_cases hc : fac.courts = [] <;> simp [hc]

/-- With a non-empty entry the spec-side step restricts the courts to the
members of the entry and rejects the facility when none remains. -/
theorem courtNumbersKeepSpec_entry (m : List (String × List Int))
    (fac : FilteredFacility) (x : Int) (xs : List Int)
    (h : m.lookup fac.facility = some (x :: xs)) :
    courtNumbersKeepSpec m fac =
      (if fac.courts.filter (memNum (x :: xs)) = []
       then none
       else some { fac with courts := fac.courts.filter (memNum (x :: xs)) }) := by
  unfold courtNumbersKeepSpec
  rw [h]
  by_cases hk : fac.courts.filter (memNum (x :: xs)) = [] <;> simp [hk]

/-- The map-then-prune body of the court-number filter agrees with the
specification formulation facility by facility. -/
theorem courtNumbersBody_eq (m : List (String × List Int)) :
    ∀ fs : List FilteredFacility,
    ((fs.map (courtNumbersKeep m)).filter (fun fac => fac.courts.length > 0)) =
      fs.filterMap (courtNumbersKeepSpec m) := by
  intro fs
  induction fs with
  | nil => rfl
  | cons fac rest ih =>
    rw [List.map_cons, List.filter_cons, List.filterMap_cons, ih]
    cases hlook : m.lookup fac.facility with
    | none =>
      rw [courtNumbersKeep_noEntry m fac hlook, courtNumbersKeepSpec_noEntry m fac hlook]
      by_cases hc : fac.courts = []
      · simp [hc]
      · have hpos : 0 < fac.courts.length := List.length_pos.mpr hc
        simp [hc, hpos]
    | some e =>
      cases e with
      | nil =>
        rw [courtNumbersKeep_emptyEntry m fac hlook,
          courtNumbersKeepSpec_emptyEntry m fac hlook]
        by_cases hc : fac.courts = []
        · simp [hc]
        · have hpos : 0 < fac.courts.length := List.length_pos.mpr hc
          simp [hc, hpos]
      | cons x xs =>
        rw [courtNumbersKeep_entry m fac x xs hlook,
          courtNumbersKeepSpec_entry m fac x xs hlook]
        by_cases hk : fac.courts.filter (memNum (x :: xs)) = []
        · simp [hk]
        · have hpos : 0 < (fac.courts.filter (memNum (x :: xs))).length :=
            List.length_pos.mpr hk
          simp [hk, hpos]

/-- Claim C2: with a non-empty mapping the court-number filter keeps, for a
facility with a non-empty entry, exactly the courts whose number is in the
entry in input order, keeps all courts of a facility with no entry or an
empty entry, and drops every facility whose court list is empty after the
per-facility step; on the worked example of one facility with courts five to
eight and the entry five and six, the output is that facility with exactly
courts five and six in that order. -/
theorem claim_C2_court_number_filter :
    (∀ (facilities : List FilteredFacility) (m : List (String × List Int)),
        m ≠ [] →
        filterByCourtNumbers facilities (some m) = filterByCourtNumbersSpec m facilities) ∧
    filterByCourtNumbers [facA] (some [("A", [5, 6])]) =
      [{ facility := "A", facilityId := 1, courts := [courtFive, courtSix] }] := by
  refine ⟨?_, by decide⟩
  intro facilities m hm
  have hlen : ¬ (m.length = 0) := fun h => hm (List.length_eq_zero.mp h)
  simp only [filterByCourtNumbers]
  rw [if_neg hlen]
  exact courtNumbersBody_eq m facilities

/-- Claim C2 witness: the refinement equation instantiated at the worked
example mapping and facility. -/
theorem claim_C2_witness :
    filterByCourtNumbers [facA] (some [("A", [5, 6])]) =
      filterByCourtNumbersSpec [("A", [5, 6])] [facA] :=
  claim_C2_court_number_filter.1 [facA] [("A", [5, 6])] (by decide)

/-- Unfolding equation of the per-timeslot loop on a non-empty list of
scanned rows. -/
theorem buildTimeslots_cons (html : List Char) (courts : List String)
    (time : List Char) (startPos : Nat) (rest : List (List Char × Nat)) :
    buildTimeslots html courts ((time, startPos) :: rest) =
      { time := String.mk time
        courts := assignStatuses courts (scanCells (jsSubstring html (startPos : Int)
          (match rest with
           | (_, nextStart) :: _ => (nextStart : Int)
           | [] => indexOfFrom html tbodyClose startPos))) } ::
        buildTimeslots html courts rest := rfl

/-- The status-assignment loop yields nothing once the court index has passed
the number of extracted statuses. -/
theorem assignFrom_none (sts : List String) :
    ∀ (courts : List String) (i : Nat), sts.length ≤ i →
      assignStatusesFrom sts i courts = [] := by
  intro courts
  induction courts with
  | nil => intro i _; rfl
  | cons name rest ih =>
    intro i h
    unfold assignStatusesFrom
    rw [List.get?_eq_none.mpr h]
    exact ih (i + 1) (Nat.le_succ_of_le h)

/-- The status-assignment loop from any start index equals the positional zip
of the remaining courts with the remaining statuses. -/
theorem assignFrom_eq (sts : List String) :
    ∀ (courts : List String) (i : Nat),
      assignStatusesFrom sts i courts =
        ((courts.take (sts.length - i)).zip (sts.drop i)).map
          (fun pr => (pr.1, { status := pr.2, available := pr.2 == "LIBRE" })) := by
  intro courts
  induction courts with
  | nil => intro i; simp [assignStatusesFrom]
  | cons name rest ih =>
    intro i
    unfold assignStatusesFrom
    cases hget : sts.get? i with
    | some st =>
      obtain ⟨hlt, heq⟩ := List.get?_eq_some.mp hget
      have hdrop : sts.drop i = st :: sts.drop (i + 1) := by
        rw [List.drop_eq_get_cons hlt, heq]
      have hsub : sts.length - i = (sts.length - (i + 1)) + 1 := by omega
      rw [hdrop, hsub, List.take_succ_cons, List.zip_cons_cons, List.map_cons]
      rw [ih (i + 1)]
    | none =>
      have hge : sts.length ≤ i := List.get?_eq_none.mp hget
      rw [assignFrom_none sts rest (i + 1) (Nat.le_succ_of_le hge)]
      rw [List.drop_eq_nil_of_le hge]
      simp

/-- Every timeslot produced by the per-timeslot loop carries a court mapping
built by the status-assignment loop from some list of extracted statuses. -/
theorem mem_buildTimeslots (html : List Char) (courts : List String) :
    ∀ (slots : List (List Char × Nat)) (slot : Timeslot),
      slot ∈ buildTimeslots html courts slots →
      ∃ sts : List String, slot.courts = assignStatuses courts sts := by
  intro slots
  induction slots with
  | nil =>
    intro slot h
    simp [buildTimeslots] at h
  | cons hd rest ih =>
    intro slot h
    obtain ⟨time, startPos⟩ := hd
    rw [buildTimeslots_cons] at h
    rcases List.mem_cons.mp h with heq | hmem
    · exact ⟨_, by rw [heq]⟩
    · exact ih slot hmem

/-- Claim C3: every timeslot row parsed by parsePlanningHTML assigns its
extracted statuses to the courts positionally: the row mapping is exactly the
zip of the leading courts with the statuses, trailing courts beyond the number
of statuses receive no entry, the status string is preserved verbatim, and the
available flag is true exactly for the literal LIBRE. -/
theorem claim_C3_positional_zip (html : List Char) (slot : Timeslot)
    (h : slot ∈ (parsePlanningHTML html).timeslots) :
    ∃ sts : List String,
      slot.courts = (((parsePlanningHTML html).courts.take sts.length).zip sts).map
        (fun pr => (pr.1, { status := pr.2, available := decide (pr.2 = "LIBRE") })) := by
  have htimeslots : (parsePlanningHTML html).timeslots =
      buildTimeslots html ((scanCourts html).map String.mk) (scanTimes html) := rfl
  rw [htimeslots] at h
  obtain ⟨sts, hassign⟩ := mem_buildTimeslots html _ (scanTimes html) slot h
  refine ⟨sts, ?_⟩
  rw [hassign]
  rw [show assignStatuses ((scanCourts html).map String.mk) sts =
      assignStatusesFrom sts 0 ((scanCourts html).map String.mk) from rfl]
  rw [assignFrom_eq sts ((scanCourts html).map String.mk) 0]
  rw [show (parsePlanningHTML html).courts = (scanCourts html).map String.mk from rfl]
  simp only [Nat.sub_zero, List.drop_zero]
  apply List.map_congr_left
  intro pr _
  by_cases hp : pr.2 = "LIBRE" <;> simp [hp]

/-- Claim C3 witness: the positional zip instantiated on the short-row
document, whose only row has one status for two courts, so the first court is
available with the literal LIBRE and the second court has no entry. -/
theorem claim_C3_witness :
    ∃ sts : List String,
      ({ time := "09h - 10h"
         courts := [("Court 01", { status := "LIBRE", available := true })] } :
          Timeslot).courts =
        (((parsePlanningHTML htmlShortRow).courts.take sts.length).zip sts).map
          (fun pr => (pr.1, { status := pr.2, available := decide (pr.2 = "LIBRE") })) :=
  claim_C3_positional_zip htmlShortRow
    { time := "09h - 10h"
      courts := [("Court 01", { status := "LIBRE", available := true })] }
    (by decide)

/-- When the court-header pattern matches at no suffix the court scan is
empty. -/
theorem scanCourtsAux_nil :
    ∀ (fuel : Nat) (s : List Char), (∀ i, tryCourt (s.drop i) = none) →
      scanCourtsAux fuel s = [] := by
  intro fuel
  induction fuel with
  | zero => intro s _; rfl
  | succ n ih =>
    intro s h
    cases s with
    | nil => rfl
    | cons c cs =>
      have h0 : tryCourt (c :: cs) = none := h 0
      unfold scanCourtsAux
      rw [h0]
      exact ih cs (fun i => h (i + 1))

/-- When the timeslot pattern matches at no suffix the timeslot scan is
empty. -/
theorem scanTimesAux_nil :
    ∀ (fuel : Nat) (pos : Nat) (s : List Char), (∀ i, tryTime (s.drop i) = none) →
      scanTimesAux fuel pos s = [] := by
  intro fuel
  induction fuel with
  | zero => intro pos s _; rfl
  | succ n ih =>
    intro pos s h
    cases s with
    | nil => rfl
    | cons c cs =>
      have h0 : tryTime (c :: cs) = none := h 0
      unfold scanTimesAux
      rw [h0]
      exact ih (pos + 1) cs (fun i => h (i + 1))

/-- Conversely, an empty timeslot scan means the timeslot pattern matches at
no suffix: the scan emits an entry as soon as any position matches. -/
theorem scanTimesAux_eq_nil_inv :
    ∀ (fuel : Nat) (pos : Nat) (s : List Char), s.length ≤ fuel →
      scanTimesAux fuel pos s = [] → ∀ i, tryTime (s.drop i) = none := by
  intro fuel
  induction fuel with
  | zero =>
    intro pos s hlen _ i
    have hs : s = [] := List.length_eq_zero.mp (Nat.le_zero.mp hlen)
    subst hs
    rw [List.drop_nil]
    rfl
  | succ n ih =>
    intro pos s hlen hscan i
    cases s with
    | nil =>
      rw [List.drop_nil]
      rfl
    | cons c cs =>
      cases htry : tryTime (c :: cs) with
      | some val =>
        exfalso
        obtain ⟨cap, k⟩ := val
        unfold scanTimesAux at hscan
        rw [htry] at hscan
        exact absurd hscan (List.cons_ne_nil _ _)
      | none =>
        unfold scanTimesAux at hscan
        rw [htry] at hscan
        cases i with
        | zero => exact htry
        | succ j => exact ih (pos + 1) cs (Nat.le_of_succ_le_succ hlen) hscan j

/-- The per-timeslot loop returns an empty list only on an empty list of
scanned rows. -/
theorem buildTimeslots_eq_nil_inv (html : List Char) (courts : List String) :
    ∀ slots, buildTimeslots html courts slots = [] → slots = [] := by
  intro slots h
  cases slots with
  | nil => rfl
  | cons hd rest =>
    obtain ⟨t, s⟩ := hd
    rw [buildTimeslots_cons] at h
    exact absurd h (List.cons_ne_nil _ _)

/-- Claim C5 counterexample: on a document with a timeslot label but no court
header, parsePlanningHTML returns an empty courts list but a non-empty
timeslots list, so the result is not empty on both components. -/
theorem claim_C5_counterexample :
    (parsePlanningHTML htmlNoHeaders).courts = [] ∧
    (parsePlanningHTML htmlNoHeaders).timeslots ≠ [] := by
  decide

/-- Claim C5 amended: on every document in which the court-header pattern
matches nowhere, parsePlanningHTML (a total function, so it never throws)
returns an empty courts list and every timeslot it still emits has an empty
court mapping; the timeslots list itself is empty if and only if the timeslot
pattern also matches nowhere. -/
theorem claim_C5_amended : ∀ html : List Char,
    (∀ i, i ≤ html.length → tryCourt (html.drop i) = none) →
    (parsePlanningHTML html).courts = [] ∧
    (∀ slot ∈ (parsePlanningHTML html).timeslots, slot.courts = []) ∧
    ((parsePlanningHTML html).timeslots = [] ↔
      (∀ i, i ≤ html.length → tryTime (html.drop i) = none)) := by
  intro html hc
  have hcall : ∀ i, tryCourt (html.drop i) = none := by
    intro i
    by_cases hi : i ≤ html.length
    · exact hc i hi
    · rw [List.drop_eq_nil_of_le (by omega)]
      rfl
  have hcourts : scanCourts html = [] := scanCourtsAux_nil html.length html hcall
  have hpc : (parsePlanningHTML html).courts = [] := by
    show (scanCourts html).map String.mk = []
    rw [hcourts]
    rfl
  refine ⟨hpc, ?_, ?_⟩
  · intro slot hmem
    have hts : (parsePlanningHTML html).timeslots =
        buildTimeslots html ((scanCourts html).map String.mk) (scanTimes html) := rfl
    rw [hts, hcourts] at hmem
    obtain ⟨sts, hassign⟩ := mem_buildTimeslots html _ (scanTimes html) slot hmem
    rw [hassign]
    rfl
  · constructor
    · intro hnil i _
      have hb : buildTimeslots html ((scanCourts html).map String.mk)
          (scanTimes html) = [] := hnil
      have hst : scanTimes html = [] :=
        buildTimeslots_eq_nil_inv html ((scanCourts html).map String.mk)
          (scanTimes html) hb
      exact scanTimesAux_eq_nil_inv html.length 0 html (Nat.le_refl _) hst i
    · intro ht
      have htall : ∀ i, tryTime (html.drop i) = none := by
        intro i
        by_cases hi : i ≤ html.length
        · exact ht i hi
        · rw [List.drop_eq_nil_of_le (by omega)]
          rfl
      have htimes : scanTimes html = [] := scanTimesAux_nil html.length 0 html htall
      show buildTimeslots html ((scanCourts html).map String.mk) (scanTimes html) = []
      rw [htimes]
      rfl

/-- Claim C5 witness: the amended statement at the concrete document with a
timeslot label and no court header; the emitted timeslot has an empty court
mapping and the equivalence holds with both sides false there. -/
theorem claim_C5_witness :
    (parsePlanningHTML htmlNoHeaders).courts = [] ∧
    (∀ slot ∈ (parsePlanningHTML htmlNoHeaders).timeslots, slot.courts = []) ∧
    ((parsePlanningHTML htmlNoHeaders).timeslots = [] ↔
      (∀ i, i ≤ htmlNoHeaders.length → tryTime (htmlNoHeaders.drop i) = none)) :=
  claim_C5_amended htmlNoHeaders (by decide)

/-- JavaScript substring semantics with a minus-one end index: the negative
index clamps to zero, the indices swap, and the result is the prefix of the
string before the start index rather than an empty string. -/
theorem jsSubstring_neg_end (s : List Char) (p : Nat) :
    jsSubstring s (p : Int) (-1) = s.take (min p s.length) := by
  unfold jsSubstring
  dsimp only
  have ha : max ((p : Nat) : Int) 0 = (p : Int) := max_eq_left (Int.natCast_nonneg p)
  have hb : max (-1 : Int) 0 = 0 := rfl
  have hb2 : min (0 : Int) ((s.length : Nat) : Int) = 0 :=
    min_eq_left (Int.natCast_nonneg _)
  rw [ha, hb, hb2]
  have ha2 : min ((p : Nat) : Int) ((s.length : Nat) : Int) =
      ((min p s.length : Nat) : Int) := by
    rw [Nat.cast_min]
  rw [ha2]
  have hlo : min (((min p s.length : Nat) : Int)) 0 = 0 :=
    min_eq_right (Int.natCast_nonneg _)
  have hhi : max (((min p s.length : Nat) : Int)) 0 = ((min p s.length : Nat) : Int) :=
    max_eq_left (Int.natCast_nonneg _)
  rw [hlo, hhi]
  simp
  rw [ha2]
  exact Int.toNat_ofNat _

/-- The per-timeslot loop on a list ending in a final row produces a list
ending in the row built with the table-body-close end offset. -/
theorem buildTimeslots_last (html : List Char) (courts : List String) :
    ∀ (pre : List (List Char × Nat)) (t : List Char) (s : Nat),
      ∃ init, buildTimeslots html courts (pre ++ [(t, s)]) =
        init ++ [{ time := String.mk t
                   courts := assignStatuses courts (scanCells (jsSubstring html (s : Int)
                     (indexOfFrom html tbodyClose s))) }] := by
  intro pre
  induction pre with
  | nil =>
    intro t s
    exact ⟨[], rfl⟩
  | cons hd rest ih =>
    intro t s
    obtain ⟨time0, pos0⟩ := hd
    obtain ⟨init, hinit⟩ := ih t s
    refine ⟨{ time := String.mk time0
              courts := assignStatuses courts (scanCells (jsSubstring html (pos0 : Int)
                (match rest ++ [(t, s)] with
                 | (_, nextStart) :: _ => (nextStart : Int)
                 | [] => indexOfFrom html tbodyClose pos0))) } :: init, ?_⟩
    rw [List.cons_append, buildTimeslots_cons, hinit]
    rfl

/-- Claim C10 counterexample: on the document with one court header, two
timeslot rows, a status cell between them and no table-body close tag at all,
the last timeslot of parsePlanningHTML carries one court entry, not an empty
mapping: the supposedly empty final row span actually picks up the earlier
status cell. -/
theorem claim_C10_counterexample :
    indexOfFrom htmlNoTbody tbodyClose 0 = -1 ∧
    (parsePlanningHTML htmlNoTbody).timeslots.map (fun sl => sl.courts.length) =
      [1, 1] := by
  decide

/-- Claim C10 amended: when the document has at least one timeslot row and no
table-body close tag at or after the last row start, the indexOf call returns
minus one and the JavaScript substring swaps the clamped offsets, so the last
row span is the prefix of the document before the row start; the last
timeslot is therefore built from the statuses extracted out of that prefix
rather than from its own row. -/
theorem claim_C10_amended (html : List Char) (pre : List (List Char × Nat))
    (t : List Char) (s : Nat)
    (h1 : scanTimes html = pre ++ [(t, s)])
    (h2 : indexOfFrom html tbodyClose s = -1) :
    ∃ init, (parsePlanningHTML html).timeslots =
      init ++ [{ time := String.mk t
                 courts := assignStatuses ((scanCourts html).map String.mk)
                   (scanCells (html.take (min s html.length))) }] := by
  have hts : (parsePlanningHTML html).timeslots =
      buildTimeslots html ((scanCourts html).map String.mk) (scanTimes html) := rfl
  obtain ⟨init, hinit⟩ :=
    buildTimeslots_last html ((scanCourts html).map String.mk) pre t s
  refine ⟨init, ?_⟩
  rw [hts, h1, hinit, h2, jsSubstring_neg_end]

/-- Claim C10 witness: the amended statement at the concrete document without
a table-body close tag, whose last row starts at offset seventy-nine. -/
theorem claim_C10_witness :
    ∃ init, (parsePlanningHTML htmlNoTbody).timeslots =
      init ++ [{ time := String.mk "08h - 09h".toList
                 courts := assignStatuses ((scanCourts htmlNoTbody).map String.mk)
                   (scanCells (htmlNoTbody.take (min 79 htmlNoTbody.length))) }] :=
  claim_C10_amended htmlNoTbody [("07h - 08h".toList, 34)] "08h - 09h".toList 79
    (by decide) (by decide)
